import Mathlib

set_option maxHeartbeats 1000000

/-!
Verification of the P5 proxy generator (p5_proxy_generator.py).

The embedding fixes POSIX path semantics (os.sep is the slash character),
matching the macOS and Linux deployment described in the script header.
Strings model Python strings; the file-system state of the temp area is
modeled as the set (duplicate-free list) of paths that currently exist
there.  The external transcoder and the dummy-image synthesis are modeled
by boolean success parameters; the run function returns Except, mirroring
error_exit and uncaught exceptions (exit code 1).
-/

namespace P5Proxy

/-! ## Character-list utilities used by the path model -/

/-- Does the list start with the given pattern.  Used to model Python
substring tests at a fixed position. -/
def listStartsWith : List Char → List Char → Bool
  | [], _ => true
  | _ :: _, [] => false
  | a :: as, b :: bs => a == b && listStartsWith as bs

/-- Does the list end with the given pattern.  Models str.endswith. -/
def listEndsWith (suf l : List Char) : Bool :=
  listStartsWith suf.reverse l.reverse

/-- The separator class of the regex in build_workflow_path: the pattern
matches either a slash or a backslash on both sides of the marker. -/
def isSepChar (c : Char) : Bool := c == '/' || c == '\\'

/-- Is the first character of the list a separator character. -/
def headIsSep : List Char → Bool
  | [] => false
  | c :: _ => isSepChar c

/-- Python str.split on the slash character: empty fields are kept, the
empty string splits to one empty field. -/
def splitSlash : List Char → List (List Char)
  | [] => [[]]
  | c :: rest =>
    if c == '/' then [] :: splitSlash rest
    else
      match splitSlash rest with
      | [] => [[c]]
      | h :: t => (c :: h) :: t

/-- Python sep.join for the slash character. -/
def joinSlash : List (List Char) → List Char
  | [] => []
  | [s] => s
  | s :: t => s ++ '/' :: joinSlash t

/-- Drop trailing slashes (str.rstrip with the separator). -/
def rstripSlash (l : List Char) : List Char :=
  (l.reverse.dropWhile (fun c => c == '/')).reverse

/-- Index one past the last slash of the list; 0 when there is none.
This is Python p.rfind(sep) + 1. -/
def lastSlashEnd (l : List Char) : Nat :=
  match l.reverse.findIdx? (fun c => c == '/') with
  | some j => l.length - j
  | none => 0

/-! ## POSIX path functions (posixpath, pathlib) used by the script -/

/-- os.path.dirname on POSIX: take everything up to and including the last
slash, then strip trailing slashes unless the head consists of slashes
only. -/
def dirname (p : String) : String :=
  let head := p.data.take (lastSlashEnd p.data)
  if head.any (fun c => c != '/') then ⟨rstripSlash head⟩ else ⟨head⟩

/-- The final path component (for file paths not ending in a separator):
everything after the last slash. -/
def path_name (p : String) : String :=
  ⟨(p.data.reverse.takeWhile (fun c => c != '/')).reverse⟩

/-- pathlib Path(p).stem: the final component without its last extension;
a leading dot or a trailing dot does not start an extension. -/
def path_stem (p : String) : String :=
  let n := (path_name p).data
  match n.reverse.findIdx? (fun c => c == '.') with
  | some j =>
    let i := n.length - 1 - j
    if 0 < i ∧ i < n.length - 1 then ⟨n.take i⟩ else ⟨n⟩
  | none => ⟨n⟩

/-- os.path.join on POSIX for two components. -/
def posixJoin (a b : String) : String :=
  if listStartsWith ['/'] b.data then b
  else if a = "" ∨ listEndsWith ['/'] a.data then a ++ b
  else a ++ "/" ++ b

/-- os.path.join on POSIX for three components. -/
def posixJoin3 (a b c : String) : String :=
  posixJoin (posixJoin a b) c

/-- Number of leading slashes for posixpath.normpath: exactly two leading
slashes are preserved, any other number collapses to one. -/
def initialSlashes : List Char → Nat
  | '/' :: '/' :: '/' :: _ => 1
  | '/' :: '/' :: _ => 2
  | '/' :: _ => 1
  | _ => 0

/-- posixpath.normpath: collapse repeated slashes, drop single-dot
components, resolve double-dot components textually. -/
def normpath (p : String) : String :=
  if p = "" then "." else
  let k := initialSlashes p.data
  let comps := (splitSlash p.data).filter (fun c => decide (c ≠ [] ∧ c ≠ ['.']))
  let newComps := comps.foldl (fun acc comp =>
    if comp ≠ ['.', '.'] ∨ (k = 0 ∧ acc = []) ∨ acc.getLast? = some ['.', '.'] then
      acc ++ [comp]
    else if acc ≠ [] then acc.dropLast
    else acc) []
  let res := List.replicate k '/' ++ joinSlash newComps
  if res = [] then "." else ⟨res⟩

/-! ## The embedded script: configuration and path mapping -/

/-- get_container from the script: an explicit override wins, otherwise
the codec chooses the container, defaulting to mp4. -/
def get_container (codec custom : String) : String :=
  if custom ≠ "" then custom
  else if codec = "h264" then "mp4"
  else if codec = "prores" then "mov"
  else if codec = "dnxhd" then "mxf"
  else "mp4"

/-- The regex search of build_workflow_path, scanning left to right for
sep marker sep (sep being slash or backslash, the marker taken
literally).  Returns the characters after the match end, like
src_dir at match.end() onward. -/
def searchMarkerAux (marker : List Char) : List Char → Option (List Char)
  | [] => none
  | c :: rest =>
    if isSepChar c && listStartsWith marker rest &&
        headIsSep (rest.drop marker.length) then
      some (rest.drop (marker.length + 1))
    else searchMarkerAux marker rest

/-- Step 1 of build_workflow_path: replace the base path when the marker
folder is found (only when both the marker and the new base are
configured).  A mid-path regex match rebuilds newBase/marker/after; an
end-of-path match rebuilds newBase/marker; otherwise the directory is
unchanged (a warning is logged). -/
def substitute_base (marker newBase src_dir : String) : String :=
  if marker ≠ "" ∧ newBase ≠ "" then
    match searchMarkerAux marker.data src_dir.data with
    | some after => posixJoin3 newBase marker ⟨after⟩
    | none =>
      if listEndsWith ('/' :: marker.data) src_dir.data then posixJoin newBase marker
      else src_dir
  else src_dir

/-- Step 2 of build_workflow_path: apply os.path.dirname the configured
number of times. -/
def remove_levels : Nat → String → String
  | 0, d => d
  | Nat.succ n, d => remove_levels n (dirname d)

/-- Steps 1 to 3 of build_workflow_path: base substitution, level
trimming, folder append. -/
def workflow_target_dir (marker newBase : String) (removeLevels : Nat)
    (replaceWith : String) (src_file : String) : String :=
  let src_dir := substitute_base marker newBase (dirname src_file)
  let t := remove_levels removeLevels src_dir
  if replaceWith ≠ "" then posixJoin t replaceWith else t

/-- build_workflow_path: the full path mapper, including the naming
policy that adds a proxy marker to the base name exactly when the
normalized target directory equals the normalized original source
directory. -/
def build_workflow_path (marker newBase : String) (removeLevels : Nat)
    (replaceWith : String) (src_file container : String) : String :=
  let target_dir := workflow_target_dir marker newBase removeLevels replaceWith src_file
  let output_basename :=
    if normpath target_dir = normpath (dirname src_file) then
      path_stem src_file ++ "_proxy"
    else path_stem src_file
  posixJoin target_dir (output_basename ++ "." ++ container)

/-! ## The embedded script: FFmpeg command construction -/

/-- The argument list built by generate_proxy.  use_libx264 is the
capability flag set by init_ffmpeg (advanced rate control available). -/
def ffmpeg_cmd (ffmpeg : String) (use_libx264 : Bool)
    (input_file output_file scale vbitrate abitrate codec codec_profile
     container crf pre_set tune : String) : List String :=
  let cmd := [ffmpeg, "-i", input_file]
  let cmd :=
    if codec = "h264" then
      let cmd := cmd ++ ["-vf", "scale=" ++ scale ++ ":-2", "-pix_fmt", "yuv420p"]
      let cmd :=
        if use_libx264 then
          let cmd := cmd ++ ["-c:v", "libx264", "-crf", crf, "-preset", pre_set]
          if tune ≠ "" then cmd ++ ["-tune", tune] else cmd
        else cmd ++ ["-c:v", "libopenh264", "-b:v", vbitrate]
      cmd ++ ["-c:a", "aac", "-b:a", abitrate, "-movflags", "+faststart"]
    else if codec = "prores" then
      let profile :=
        if codec_profile = "proxy" then "0"
        else if codec_profile = "lt" then "1"
        else if codec_profile = "standard" then "2"
        else if codec_profile = "hq" then "3"
        else "1"
      cmd ++ ["-vf", "scale=" ++ scale ++ ":-2", "-c:v", "prores_ks",
              "-profile:v", profile, "-c:a", "pcm_s16le", "-ar", "48000"]
    else if codec = "dnxhd" then
      let profile := if codec_profile ≠ "" then codec_profile else "dnxhr_sq"
      cmd ++ ["-vf", "scale=" ++ scale ++ ":-2", "-pix_fmt", "yuv422p",
              "-c:v", "dnxhd", "-profile:v", profile,
              "-c:a", "pcm_s16le", "-ar", "48000"]
    else
      cmd ++ ["-vf", "scale=" ++ scale ++ ":-2", "-pix_fmt", "yuv420p",
              "-c:v", "libopenh264", "-b:v", vbitrate,
              "-c:a", "aac", "-b:a", abitrate, "-movflags", "+faststart"]
  cmd ++ ["-f", container, "-loglevel", "error", "-y", output_file]

/-! ## The embedded script: main -/

/-- The dual-output configuration constants of the script that drive
control flow in main. -/
structure Config where
  ENABLE_P5_PREVIEW : Bool
  P5_PREVIEW_SOURCE : String
  ENABLE_WORKFLOW_STORE : Bool
  WORKFLOW_STORE_SOURCE : String
  PREVIEW_CODEC : String
  PREVIEW_CONTAINER : String
  WORKFLOW_CODEC : String
  WORKFLOW_CONTAINER : String

/-- One output of the dual-output configuration, as described by the
specification: an enable toggle plus the quality tier it draws from. -/
structure OutputSpec where
  enabled : Bool
  qualitySource : String

/-- The two OutputSpecs of a configuration: the P5 preview output and the
workflow store output. -/
def outputSpecs (c : Config) : List OutputSpec :=
  [⟨c.ENABLE_P5_PREVIEW, c.P5_PREVIEW_SOURCE⟩,
   ⟨c.ENABLE_WORKFLOW_STORE, c.WORKFLOW_STORE_SOURCE⟩]

/-- need_preview from main: the preview tier is required. -/
def need_preview (c : Config) : Bool :=
  (c.ENABLE_P5_PREVIEW && decide (c.P5_PREVIEW_SOURCE = "preview")) ||
  (c.ENABLE_WORKFLOW_STORE && decide (c.WORKFLOW_STORE_SOURCE = "preview"))

/-- need_workflow from main: the workflow tier is required. -/
def need_workflow (c : Config) : Bool :=
  (c.ENABLE_P5_PREVIEW && decide (c.P5_PREVIEW_SOURCE = "workflow")) ||
  (c.ENABLE_WORKFLOW_STORE && decide (c.WORKFLOW_STORE_SOURCE = "workflow"))

/-- The preview_proxy_path variable of main: set to a temp path when the
preview tier is encoded, otherwise left at the empty string. -/
def preview_proxy_path (c : Config) (tmp basename : String) : String :=
  if need_preview c then
    posixJoin tmp (basename ++ "_preview." ++ get_container c.PREVIEW_CODEC c.PREVIEW_CONTAINER)
  else ""

/-- The workflow_proxy_path variable of main. -/
def workflow_proxy_path (c : Config) (tmp basename : String) : String :=
  if need_workflow c then
    posixJoin tmp (basename ++ "_workflow." ++ get_container c.WORKFLOW_CODEC c.WORKFLOW_CONTAINER)
  else ""

/-- The source_path of the workflow-store copy branch of main. -/
def copy_source_path (c : Config) (tmp basename : String) : String :=
  if c.WORKFLOW_STORE_SOURCE = "preview" then preview_proxy_path c tmp basename
  else workflow_proxy_path c tmp basename

/-- The dummy return image synthesized when the P5 preview output is
disabled. -/
def dummy_path (tmp : String) (pid : Nat) : String :=
  posixJoin tmp ("proxy_dummy_" ++ Nat.repr pid ++ ".jpg")

/-- Creating a file at a path: the temp area is modeled as the set of
existing paths, so creating an already existing path overwrites it. -/
def insertFile (fs : List String) (x : String) : List String :=
  if x ∈ fs then fs else fs ++ [x]

/-- The temp files existing after the two encode branches of main (under
the assumption that the required encodes succeeded). -/
def fs_after_encodes (c : Config) (tmp basename : String) : List String :=
  let fs1 := if need_preview c then insertFile [] (preview_proxy_path c tmp basename) else []
  if need_workflow c then insertFile fs1 (workflow_proxy_path c tmp basename) else fs1

/-- The return_path of main: the tier named by the preview output when it
is enabled, else the synthesized dummy image. -/
def return_path_def (c : Config) (tmp basename : String) (pid : Nat) : String :=
  if c.ENABLE_P5_PREVIEW then
    (if c.P5_PREVIEW_SOURCE = "preview" then preview_proxy_path c tmp basename
     else workflow_proxy_path c tmp basename)
  else dummy_path tmp pid

/-- The temp files existing just before the cleanup loop: the dummy image
is added when the preview output is disabled and its synthesis
succeeded (the script does not check the synthesis exit status). -/
def fs_before_cleanup (c : Config) (tmp basename : String) (pid : Nat)
    (dummyOk : Bool) : List String :=
  if c.ENABLE_P5_PREVIEW then fs_after_encodes c tmp basename
  else if dummyOk then insertFile (fs_after_encodes c tmp basename) (dummy_path tmp pid)
  else fs_after_encodes c tmp basename

/-- One iteration of the cleanup loop of main: delete the file at v when
the variable is non-empty, the file exists, and the path differs from the
return path. -/
def removeIfStale (v ret : String) (fs : List String) : List String :=
  if v ≠ "" ∧ v ∈ fs ∧ v ≠ ret then fs.filter (fun q => decide (q ≠ v)) else fs

/-- The cleanup loop of main, iterating over the preview-path and
workflow-path variables in order. -/
def cleanupFiles (p w ret : String) (fs : List String) : List String :=
  removeIfStale w ret (removeIfStale p ret fs)

/-- Observable outcome of a successful run of main. -/
structure RunOutcome where
  /-- Number of generate_proxy invocations (tier transcodes) performed. -/
  transcodes : Nat
  /-- Was the preview tier encoded. -/
  encodedPreview : Bool
  /-- Was the workflow tier encoded. -/
  encodedWorkflow : Bool
  /-- The source path handed to the workflow-store copy, when that branch
  ran. -/
  copyPerformed : Option String
  /-- The path printed to standard output for P5. -/
  returnPath : String
  /-- The temp-area artifacts of this run still existing at exit. -/
  tempFiles : List String

/-- main, as a pure function of the configuration, the temp directory,
the input file, the process id, and the success of the external calls:
input existence check, need analysis, the two encode branches, the
workflow-store copy, return-path selection with dummy fallback, the
return-path existence check, and the cleanup loop.  Except.error models
error_exit and uncaught exceptions (exit code 1), Except.ok a run that
reaches the final print. -/
def runMain (c : Config) (tmp input_file : String) (pid : Nat)
    (inputExists encPreviewOk encWorkflowOk dummyOk : Bool) :
    Except String RunOutcome :=
  if inputExists = false then Except.error "Input file not found" else
  if need_preview c = true ∧ encPreviewOk = false then
    Except.error "Failed to generate preview quality proxy" else
  if need_workflow c = true ∧ encWorkflowOk = false then
    Except.error "Failed to generate workflow quality proxy" else
  if c.ENABLE_WORKFLOW_STORE = true ∧
      copy_source_path c tmp (path_stem input_file) ∉
        fs_after_encodes c tmp (path_stem input_file) then
    Except.error "copy source missing" else
  if return_path_def c tmp (path_stem input_file) pid = "" ∨
      return_path_def c tmp (path_stem input_file) pid ∉
        fs_before_cleanup c tmp (path_stem input_file) pid dummyOk then
    Except.error "Return path invalid" else
  Except.ok
    { transcodes := (if need_preview c = true then 1 else 0) +
        (if need_workflow c = true then 1 else 0)
      encodedPreview := need_preview c
      encodedWorkflow := need_workflow c
      copyPerformed :=
        if c.ENABLE_WORKFLOW_STORE then some (copy_source_path c tmp (path_stem input_file))
        else none
      returnPath := return_path_def c tmp (path_stem input_file) pid
      tempFiles := cleanupFiles (preview_proxy_path c tmp (path_stem input_file))
        (workflow_proxy_path c tmp (path_stem input_file))
        (return_path_def c tmp (path_stem input_file) pid)
        (fs_before_cleanup c tmp (path_stem input_file) pid dummyOk) }

/-! ## Segment-level description of directories (used to state the
whole-path-segment property of the path mapper) -/

/-- An absolute directory written as its slash-separated segments. -/
def segsPath (segs : List (List Char)) : String :=
  ⟨'/' :: joinSlash segs⟩

/-! ## Basic string lemmas -/

theorem data_append (a b : String) : (a ++ b).data = a.data ++ b.data := by
  cases a; cases b; rfl

theorem ne_empty_of_data {s : String} (h : s.data ≠ []) : s ≠ "" := by
  intro he
  exact h (by rw [he])

theorem append_ne_empty_left (a b : String) (ha : a ≠ "") : a ++ b ≠ "" := by
  apply ne_empty_of_data
  rw [data_append]
  intro h
  exact ha (String.ext (List.append_eq_nil.mp h).1)

theorem append_ne_empty_right (a b : String) (hb : b ≠ "") : a ++ b ≠ "" := by
  apply ne_empty_of_data
  rw [data_append]
  intro h
  exact hb (String.ext (List.append_eq_nil.mp h).2)

theorem posixJoin_ne_empty (a b : String) (hb : b ≠ "") : posixJoin a b ≠ "" := by
  unfold posixJoin
  split
  · exact hb
  · split
    · exact append_ne_empty_right a b hb
    · exact append_ne_empty_right _ b hb

/-! ## Lemmas about the embedded temp-file model -/

theorem get_container_ne_empty (codec custom : String) : get_container codec custom ≠ "" := by
  unfold get_container
  split
  · assumption
  split
  · decide
  split
  · decide
  split
  · decide
  · decide

theorem preview_proxy_path_ne_empty {c : Config} {tmp b : String}
    (h : need_preview c = true) : preview_proxy_path c tmp b ≠ "" := by
  unfold preview_proxy_path
  rw [if_pos h]
  exact posixJoin_ne_empty _ _
    (append_ne_empty_left _ _ (append_ne_empty_right _ _ (by decide)))

theorem workflow_proxy_path_ne_empty {c : Config} {tmp b : String}
    (h : need_workflow c = true) : workflow_proxy_path c tmp b ≠ "" := by
  unfold workflow_proxy_path
  rw [if_pos h]
  exact posixJoin_ne_empty _ _
    (append_ne_empty_left _ _ (append_ne_empty_right _ _ (by decide)))

theorem dummy_path_ne_empty (tmp : String) (pid : Nat) : dummy_path tmp pid ≠ "" := by
  unfold dummy_path
  exact posixJoin_ne_empty _ _ (append_ne_empty_right _ _ (by decide))

theorem mem_insertFile {fs : List String} {x y : String}
    (h : y ∈ insertFile fs x) : y ∈ fs ∨ y = x := by
  unfold insertFile at h
  split at h
  · exact Or.inl h
  · simpa using h

theorem self_mem_insertFile (fs : List String) (x : String) : x ∈ insertFile fs x := by
  unfold insertFile
  split
  · assumption
  · simp

theorem mem_insertFile_of_mem {fs : List String} {y : String} (x : String)
    (h : y ∈ fs) : y ∈ insertFile fs x := by
  unfold insertFile
  split
  · exact h
  · simp [h]

theorem nodup_insertFile {fs : List String} (x : String)
    (h : fs.Nodup) : (insertFile fs x).Nodup := by
  unfold insertFile
  split
  · exact h
  · rename_i hx
    simp [List.nodup_append, h, hx]

theorem removeIfStale_subset {v ret x : String} {fs : List String}
    (h : x ∈ removeIfStale v ret fs) : x ∈ fs := by
  unfold removeIfStale at h
  split at h
  · exact (List.mem_filter.mp h).1
  · exact h

theorem removeIfStale_ret {v ret : String} {fs : List String}
    (h : ret ∈ fs) : ret ∈ removeIfStale v ret fs := by
  unfold removeIfStale
  split
  · rename_i hc
    exact List.mem_filter.mpr ⟨h, by simpa using fun he => hc.2.2 he.symm⟩
  · exact h

theorem removeIfStale_stale {v ret x : String} {fs : List String}
    (hne : "" ∉ fs) (h : x ∈ removeIfStale v ret fs) (hxv : x = v) : x = ret := by
  unfold removeIfStale at h
  split at h
  · have := (List.mem_filter.mp h).2
    simp [hxv] at this
  · rename_i hc
    push_neg at hc
    subst hxv
    have hv1 : x ≠ "" := fun he => hne (he ▸ h)
    exact hc hv1 h

theorem removeIfStale_nodup {v ret : String} {fs : List String}
    (h : fs.Nodup) : (removeIfStale v ret fs).Nodup := by
  unfold removeIfStale
  split
  · exact h.filter _
  · exact h

theorem removeIfStale_empty_not_mem {v ret : String} {fs : List String}
    (h : "" ∉ fs) : "" ∉ removeIfStale v ret fs :=
  fun hmem => h (removeIfStale_subset hmem)

theorem nodup_mem_singleton {l : List String} {r : String}
    (hnd : l.Nodup) (h : ∀ x, x ∈ l ↔ x = r) : l = [r] := by
  cases l with
  | nil => exact absurd ((h r).mpr rfl) (by simp)
  | cons a t =>
    have ha : a = r := (h a).mp (by simp)
    subst ha
    have ht : t = [] := by
      cases t with
      | nil => rfl
      | cons b t' =>
        exfalso
        have hb : b = a := (h b).mp (by simp)
        subst hb
        exact (List.nodup_cons.mp hnd).1 (by simp)
    rw [ht]

/-- The key cleanup fact: when every existing temp file is one of the two
proxy paths or the return path, the return path exists, and the empty
string is not a file, the cleanup loop leaves exactly the return path. -/
theorem cleanup_spec (p w ret : String) (fs : List String)
    (hsub : ∀ x ∈ fs, x = p ∨ x = w ∨ x = ret)
    (hret : ret ∈ fs) (hnd : fs.Nodup) (hne : "" ∉ fs) :
    cleanupFiles p w ret fs = [ret] := by
  unfold cleanupFiles
  have hne1 : "" ∉ removeIfStale p ret fs := removeIfStale_empty_not_mem hne
  apply nodup_mem_singleton (removeIfStale_nodup (removeIfStale_nodup hnd))
  intro x
  constructor
  · intro hx
    have hx1 : x ∈ removeIfStale p ret fs := removeIfStale_subset hx
    have hx0 : x ∈ fs := removeIfStale_subset hx1
    rcases hsub x hx0 with hp | hw | hr
    · exact removeIfStale_stale hne hx1 hp
    · exact removeIfStale_stale hne1 hx hw
    · exact hr
  · intro hx
    subst hx
    exact removeIfStale_ret (removeIfStale_ret hret)

/-! ## Facts about the temp-file sets of a run -/

theorem mem_fs_after_encodes {c : Config} {tmp b x : String}
    (h : x ∈ fs_after_encodes c tmp b) :
    (x = preview_proxy_path c tmp b ∧ need_preview c = true) ∨
    (x = workflow_proxy_path c tmp b ∧ need_workflow c = true) := by
  simp only [fs_after_encodes] at h
  split at h
  · rename_i hw
    rcases mem_insertFile h with h1 | h1
    · split at h1
      · rename_i hp
        rcases mem_insertFile h1 with h2 | h2
        · simp at h2
        · exact Or.inl ⟨h2, hp⟩
      · simp at h1
    · exact Or.inr ⟨h1, hw⟩
  · split at h
    · rename_i hp
      rcases mem_insertFile h with h2 | h2
      · simp at h2
      · exact Or.inl ⟨h2, hp⟩
    · simp at h

theorem nodup_fs_after_encodes (c : Config) (tmp b : String) :
    (fs_after_encodes c tmp b).Nodup := by
  simp only [fs_after_encodes]
  split
  · apply nodup_insertFile
    split
    · exact nodup_insertFile _ (by simp)
    · simp
  · split
    · exact nodup_insertFile _ (by simp)
    · simp

theorem empty_not_mem_fs_after_encodes (c : Config) (tmp b : String) :
    "" ∉ fs_after_encodes c tmp b := by
  intro h
  rcases mem_fs_after_encodes h with ⟨h1, h2⟩ | ⟨h1, h2⟩
  · exact preview_proxy_path_ne_empty h2 h1.symm
  · exact workflow_proxy_path_ne_empty h2 h1.symm

theorem mem_fs_before_cleanup {c : Config} {tmp b : String} {pid : Nat} {dk : Bool}
    {x : String} (h : x ∈ fs_before_cleanup c tmp b pid dk) :
    (x = preview_proxy_path c tmp b ∧ need_preview c = true) ∨
    (x = workflow_proxy_path c tmp b ∧ need_workflow c = true) ∨
    (x = dummy_path tmp pid ∧ c.ENABLE_P5_PREVIEW = false) := by
  unfold fs_before_cleanup at h
  split at h
  · rcases mem_fs_after_encodes h with h1 | h1
    · exact Or.inl h1
    · exact Or.inr (Or.inl h1)
  · rename_i hep
    have hep' : c.ENABLE_P5_PREVIEW = false := by
      revert hep
      cases c.ENABLE_P5_PREVIEW <;> simp
    split at h
    · rcases mem_insertFile h with h1 | h1
      · rcases mem_fs_after_encodes h1 with h2 | h2
        · exact Or.inl h2
        · exact Or.inr (Or.inl h2)
      · exact Or.inr (Or.inr ⟨h1, hep'⟩)
    · rcases mem_fs_after_encodes h with h1 | h1
      · exact Or.inl h1
      · exact Or.inr (Or.inl h1)

theorem nodup_fs_before_cleanup (c : Config) (tmp b : String) (pid : Nat) (dk : Bool) :
    (fs_before_cleanup c tmp b pid dk).Nodup := by
  unfold fs_before_cleanup
  split
  · exact nodup_fs_after_encodes c tmp b
  · split
    · exact nodup_insertFile _ (nodup_fs_after_encodes c tmp b)
    · exact nodup_fs_after_encodes c tmp b

theorem empty_not_mem_fs_before_cleanup (c : Config) (tmp b : String) (pid : Nat)
    (dk : Bool) : "" ∉ fs_before_cleanup c tmp b pid dk := by
  intro h
  rcases mem_fs_before_cleanup h with ⟨h1, h2⟩ | ⟨h1, h2⟩ | ⟨h1, h2⟩
  · exact preview_proxy_path_ne_empty h2 h1.symm
  · exact workflow_proxy_path_ne_empty h2 h1.symm
  · exact dummy_path_ne_empty tmp pid h1.symm

/-! ## Inversion of a successful run of main -/

theorem runMain_ok_inv {c : Config} {tmp input_file : String} {pid : Nat}
    {ie e1 e2 dk : Bool} {o : RunOutcome}
    (h : runMain c tmp input_file pid ie e1 e2 dk = Except.ok o) :
    (return_path_def c tmp (path_stem input_file) pid ≠ "" ∧
     return_path_def c tmp (path_stem input_file) pid ∈
       fs_before_cleanup c tmp (path_stem input_file) pid dk) ∧
    o = { transcodes := (if need_preview c = true then 1 else 0) +
            (if need_workflow c = true then 1 else 0)
          encodedPreview := need_preview c
          encodedWorkflow := need_workflow c
          copyPerformed :=
            if c.ENABLE_WORKFLOW_STORE then
              some (copy_source_path c tmp (path_stem input_file))
            else none
          returnPath := return_path_def c tmp (path_stem input_file) pid
          tempFiles := cleanupFiles (preview_proxy_path c tmp (path_stem input_file))
            (workflow_proxy_path c tmp (path_stem input_file))
            (return_path_def c tmp (path_stem input_file) pid)
            (fs_before_cleanup c tmp (path_stem input_file) pid dk) } := by
  unfold runMain at h
  split at h
  · exact Except.noConfusion h
  split at h
  · exact Except.noConfusion h
  split at h
  · exact Except.noConfusion h
  split at h
  · exact Except.noConfusion h
  split at h
  · exact Except.noConfusion h
  · rename_i hcond
    push_neg at hcond
    injection h with h'
    exact ⟨hcond, h'.symm⟩

/-! ## Concrete configurations and outcomes used by witnesses and
counterexamples -/

/-- Both outputs disabled, both quality sources naming the preview tier. -/
def allOffConfig : Config := ⟨false, "preview", false, "preview", "h264", "", "h264", ""⟩

/-- Both outputs enabled, both drawing from the preview tier. -/
def c2wConfig : Config := ⟨true, "preview", true, "preview", "h264", "", "h264", ""⟩

/-- The default configuration of the script: both outputs enabled, each
drawing from its own tier. -/
def c1wConfig : Config := ⟨true, "preview", true, "workflow", "h264", "", "h264", ""⟩

/-- Preview output disabled, workflow output drawing from the preview
tier. -/
def c3wConfig : Config := ⟨false, "preview", true, "preview", "h264", "", "h264", ""⟩

/-- Preview output disabled, workflow output drawing from the workflow
tier: the two OutputSpecs name different tiers. -/
def c7cexConfig : Config := ⟨false, "preview", true, "workflow", "h264", "", "h264", ""⟩

/-- Both outputs enabled, different tiers. -/
def c7wConfig : Config := ⟨true, "preview", true, "workflow", "h264", "", "h264", ""⟩

/-- Workflow output enabled with a quality source outside the
preview/workflow enumeration. -/
def c10badConfig : Config := ⟨true, "preview", true, "direct", "h264", "", "h264", ""⟩

/-- Both outputs enabled, different tiers (used by the C10 witness). -/
def c10wConfig : Config := ⟨true, "preview", true, "workflow", "h264", "", "h264", ""⟩

def c1wOut : RunOutcome :=
  ⟨2, true, true, some "/t/clip_workflow.mp4", "/t/clip_preview.mp4", ["/t/clip_preview.mp4"]⟩

def c2wOut : RunOutcome :=
  ⟨1, true, false, some "/t/clip_preview.mp4", "/t/clip_preview.mp4", ["/t/clip_preview.mp4"]⟩

def c3wOut : RunOutcome :=
  ⟨1, true, false, some "/t/clip_preview.mp4", "/t/proxy_dummy_7.jpg", ["/t/proxy_dummy_7.jpg"]⟩

def c7wOut : RunOutcome :=
  ⟨2, true, true, some "/t/clip_workflow.mp4", "/t/clip_preview.mp4", ["/t/clip_preview.mp4"]⟩

def c10wOut : RunOutcome :=
  ⟨2, true, true, some "/t/clip_workflow.mp4", "/t/clip_preview.mp4", ["/t/clip_preview.mp4"]⟩

/-! ## Claim C1 -/

/-- C1: in every successful run, the set of quality tiers that get
transcoded is exactly the set of tiers named by the qualitySource of some
enabled OutputSpec; an all-disabled configuration yields an empty need
set. -/
theorem C1_need_analyzer (c : Config) (tmp input_file : String) (pid : Nat)
    (ie e1 e2 dk : Bool) (o : RunOutcome)
    (h : runMain c tmp input_file pid ie e1 e2 dk = Except.ok o) :
    (o.encodedPreview = true ↔
      ∃ s ∈ outputSpecs c, s.enabled = true ∧ s.qualitySource = "preview") ∧
    (o.encodedWorkflow = true ↔
      ∃ s ∈ outputSpecs c, s.enabled = true ∧ s.qualitySource = "workflow") ∧
    (c.ENABLE_P5_PREVIEW = false → c.ENABLE_WORKFLOW_STORE = false →
      o.encodedPreview = false ∧ o.encodedWorkflow = false) := by
  obtain ⟨-, rfl⟩ := runMain_ok_inv h
  refine ⟨?_, ?_, ?_⟩
  · simp [need_preview, outputSpecs]
  · simp [need_workflow, outputSpecs]
  · intro hp hw
    simp [need_preview, need_workflow, hp, hw]

/-- Witness for C1, at the default configuration of the script. -/
theorem C1_need_analyzer_witness :
    (c1wOut.encodedPreview = true ↔
      ∃ s ∈ outputSpecs c1wConfig, s.enabled = true ∧ s.qualitySource = "preview") ∧
    (c1wOut.encodedWorkflow = true ↔
      ∃ s ∈ outputSpecs c1wConfig, s.enabled = true ∧ s.qualitySource = "workflow") ∧
    (c1wConfig.ENABLE_P5_PREVIEW = false → c1wConfig.ENABLE_WORKFLOW_STORE = false →
      c1wOut.encodedPreview = false ∧ c1wOut.encodedWorkflow = false) :=
  C1_need_analyzer c1wConfig "/t" "/src/clip.mov" 5 true true true true c1wOut rfl

/-! ## Claim C2 -/

/-- C2 counterexample: a configuration in which both OutputSpecs carry
the same qualitySource tier but both are disabled runs to completion with
zero transcode invocations, not one. -/
theorem C2_counterexample :
    allOffConfig.P5_PREVIEW_SOURCE = allOffConfig.WORKFLOW_STORE_SOURCE ∧
    (runMain allOffConfig "/t" "/src/clip.mov" 7 true true true true).map
      RunOutcome.transcodes = Except.ok 0 :=
  ⟨rfl, rfl⟩

/-- C2 as amended: when both OutputSpecs carry the same qualitySource
tier, that tier is one of preview and workflow, and at least one of the
two outputs is enabled, a successful run performs exactly one transcode
invocation. -/
theorem C2_single_encode_amended (c : Config) (tmp input_file : String) (pid : Nat)
    (ie e1 e2 dk : Bool) (o : RunOutcome)
    (hsame : c.P5_PREVIEW_SOURCE = c.WORKFLOW_STORE_SOURCE)
    (htier : c.P5_PREVIEW_SOURCE = "preview" ∨ c.P5_PREVIEW_SOURCE = "workflow")
    (hen : c.ENABLE_P5_PREVIEW = true ∨ c.ENABLE_WORKFLOW_STORE = true)
    (h : runMain c tmp input_file pid ie e1 e2 dk = Except.ok o) :
    o.transcodes = 1 := by
  obtain ⟨-, rfl⟩ := runMain_ok_inv h
  rcases htier with ht | ht <;> rcases hen with he | he <;>
    simp [need_preview, need_workflow, ← hsame, ht, he]

/-- Witness for the amended C2. -/
theorem C2_single_encode_amended_witness :
    runMain c2wConfig "/t" "/src/clip.mov" 5 true true true true = Except.ok c2wOut ∧
    c2wOut.transcodes = 1 :=
  ⟨rfl, C2_single_encode_amended c2wConfig "/t" "/src/clip.mov" 5 true true true true
    c2wOut rfl (Or.inl rfl) (Or.inl rfl) rfl⟩

/-! ## Claim C3 -/

/-- C3: after every successful run, exactly one transient temp artifact
still exists, and its path is the value printed to standard output (the
returnPath); every other transient artifact has been deleted, including
one that was copied to the workflow destination. -/
theorem C3_cleanup_invariant (c : Config) (tmp input_file : String) (pid : Nat)
    (ie e1 e2 dk : Bool) (o : RunOutcome)
    (h : runMain c tmp input_file pid ie e1 e2 dk = Except.ok o) :
    o.tempFiles = [o.returnPath] := by
  obtain ⟨⟨hne, hmem⟩, rfl⟩ := runMain_ok_inv h
  apply cleanup_spec
  · intro x hx
    rcases mem_fs_before_cleanup hx with ⟨h1, h2⟩ | ⟨h1, h2⟩ | ⟨h1, h2⟩
    · exact Or.inl h1
    · exact Or.inr (Or.inl h1)
    · refine Or.inr (Or.inr ?_)
      rw [h1]
      simp [return_path_def, h2]
  · exact hmem
  · exact nodup_fs_before_cleanup c tmp (path_stem input_file) pid dk
  · exact empty_not_mem_fs_before_cleanup c tmp (path_stem input_file) pid dk

/-- Witness for C3: preview output disabled, preview tier still encoded
for the workflow store; the dummy image is the sole survivor. -/
theorem C3_cleanup_invariant_witness :
    runMain c3wConfig "/t" "/src/clip.mov" 7 true true true true = Except.ok c3wOut ∧
    c3wOut.tempFiles = [c3wOut.returnPath] :=
  ⟨rfl, C3_cleanup_invariant c3wConfig "/t" "/src/clip.mov" 7 true true true true c3wOut rfl⟩

/-! ## Claim C7 -/

/-- C7 counterexample: the two OutputSpecs reference different quality
tiers, but with the preview output disabled only one transcode occurs,
not two. -/
theorem C7_counterexample :
    c7cexConfig.P5_PREVIEW_SOURCE = "preview" ∧
    c7cexConfig.WORKFLOW_STORE_SOURCE = "workflow" ∧
    (runMain c7cexConfig "/t" "/src/clip.mov" 7 true true true true).map
      RunOutcome.transcodes = Except.ok 1 :=
  ⟨rfl, rfl, rfl⟩

/-- C7 as amended: when both OutputSpecs are enabled and reference
different quality tiers, a successful run performs exactly two transcode
invocations. -/
theorem C7_two_encodes_amended (c : Config) (tmp input_file : String) (pid : Nat)
    (ie e1 e2 dk : Bool) (o : RunOutcome)
    (hep : c.ENABLE_P5_PREVIEW = true) (hew : c.ENABLE_WORKFLOW_STORE = true)
    (hdiff : (c.P5_PREVIEW_SOURCE = "preview" ∧ c.WORKFLOW_STORE_SOURCE = "workflow") ∨
      (c.P5_PREVIEW_SOURCE = "workflow" ∧ c.WORKFLOW_STORE_SOURCE = "preview"))
    (h : runMain c tmp input_file pid ie e1 e2 dk = Except.ok o) :
    o.transcodes = 2 := by
  obtain ⟨-, rfl⟩ := runMain_ok_inv h
  rcases hdiff with ⟨h1, h2⟩ | ⟨h1, h2⟩ <;>
    simp [need_preview, need_workflow, h1, h2, hep, hew]

/-- Witness for the amended C7. -/
theorem C7_two_encodes_amended_witness :
    runMain c7wConfig "/t" "/src/clip.mov" 5 true true true true = Except.ok c7wOut ∧
    c7wOut.transcodes = 2 :=
  ⟨rfl, C7_two_encodes_amended c7wConfig "/t" "/src/clip.mov" 5 true true true true
    c7wOut rfl rfl (Or.inl ⟨rfl, rfl⟩) rfl⟩

/-! ## Claim C10 -/

/-- C10: when both quality sources lie in the preview/workflow
enumeration, the workflow-store copy branch always copies a non-empty
path referring to a tier encoded earlier in the run; outside the
enumeration the guarantee fails: the copy source can be the empty string
and the run aborts. -/
theorem C10_copy_source_guarantee :
    (∀ (c : Config) (tmp input_file : String) (pid : Nat) (ie e1 e2 dk : Bool)
        (o : RunOutcome) (s : String),
      (c.WORKFLOW_STORE_SOURCE = "preview" ∨ c.WORKFLOW_STORE_SOURCE = "workflow") →
      runMain c tmp input_file pid ie e1 e2 dk = Except.ok o →
      o.copyPerformed = some s →
      s ≠ "" ∧
        ((s = preview_proxy_path c tmp (path_stem input_file) ∧ o.encodedPreview = true) ∨
         (s = workflow_proxy_path c tmp (path_stem input_file) ∧ o.encodedWorkflow = true))) ∧
    copy_source_path c10badConfig "/t" "clip" = "" ∧
    runMain c10badConfig "/t" "/src/clip.mov" 7 true true true true =
      Except.error "copy source missing" := by
  refine ⟨?_, rfl, rfl⟩
  intro c tmp input_file pid ie e1 e2 dk o s henum h hcp
  obtain ⟨-, rfl⟩ := runMain_ok_inv h
  simp only at hcp
  split at hcp
  · rename_i hew
    injection hcp with hs
    subst hs
    rcases henum with hw | hw
    · have hnp : need_preview c = true := by
        simp [need_preview, hw, hew]
      refine ⟨?_, Or.inl ⟨?_, hnp⟩⟩
      · rw [copy_source_path, if_pos hw]
        exact preview_proxy_path_ne_empty hnp
      · rw [copy_source_path, if_pos hw]
    · have hnw : need_workflow c = true := by
        simp [need_workflow, hw, hew]
      have hw' : ¬ (c.WORKFLOW_STORE_SOURCE = "preview") := by
        rw [hw]; decide
      refine ⟨?_, Or.inr ⟨?_, hnw⟩⟩
      · rw [copy_source_path, if_neg hw']
        exact workflow_proxy_path_ne_empty hnw
      · rw [copy_source_path, if_neg hw']
  · exact Option.noConfusion hcp

/-- Witness for the universally quantified part of C10. -/
theorem C10_copy_source_guarantee_witness :
    "/t/clip_workflow.mp4" ≠ "" ∧
      (("/t/clip_workflow.mp4" = preview_proxy_path c10wConfig "/t" (path_stem "/src/clip.mov") ∧
          c10wOut.encodedPreview = true) ∨
       ("/t/clip_workflow.mp4" = workflow_proxy_path c10wConfig "/t" (path_stem "/src/clip.mov") ∧
          c10wOut.encodedWorkflow = true)) :=
  C10_copy_source_guarantee.1 c10wConfig "/t" "/src/clip.mov" 5 true true true true
    c10wOut "/t/clip_workflow.mp4" (Or.inr rfl) rfl rfl

/-! ## Claim C5 -/

/-- C5: the mapped output filename is renamed with the proxy marker
exactly when the final computed destination directory equals, after
normalization, the original pre-substitution source directory; otherwise
the original base name is kept; the extension is always the resolved
container. -/
theorem C5_proxy_suffix (marker newBase : String) (removeLevels : Nat)
    (replaceWith : String) (src_file container : String) :
    (normpath (workflow_target_dir marker newBase removeLevels replaceWith src_file) =
        normpath (dirname src_file) →
      build_workflow_path marker newBase removeLevels replaceWith src_file container =
        posixJoin (workflow_target_dir marker newBase removeLevels replaceWith src_file)
          ((path_stem src_file ++ "_proxy") ++ "." ++ container)) ∧
    (normpath (workflow_target_dir marker newBase removeLevels replaceWith src_file) ≠
        normpath (dirname src_file) →
      build_workflow_path marker newBase removeLevels replaceWith src_file container =
        posixJoin (workflow_target_dir marker newBase removeLevels replaceWith src_file)
          (path_stem src_file ++ "." ++ container)) := by
  constructor
  · intro h
    simp only [build_workflow_path]
    rw [if_pos h]
  · intro h
    simp only [build_workflow_path]
    rw [if_neg h]

/-- Witness for C5: a rule that maps into the source directory gets the
proxy rename, a rule that maps elsewhere keeps the base name. -/
theorem C5_proxy_suffix_witness :
    (build_workflow_path "" "" 0 "" "/a/b/c.mov" "mp4" =
      posixJoin (workflow_target_dir "" "" 0 "" "/a/b/c.mov")
        ((path_stem "/a/b/c.mov" ++ "_proxy") ++ "." ++ "mp4")) ∧
    (build_workflow_path "" "" 1 "px" "/a/b/c.mov" "mp4" =
      posixJoin (workflow_target_dir "" "" 1 "px" "/a/b/c.mov")
        (path_stem "/a/b/c.mov" ++ "." ++ "mp4")) :=
  ⟨(C5_proxy_suffix "" "" 0 "" "/a/b/c.mov" "mp4").1 (by decide),
   (C5_proxy_suffix "" "" 1 "px" "/a/b/c.mov" "mp4").2 (by decide)⟩

/-! ## Claim C6 -/

/-- C6: the documented scenario maps to exactly the documented
destination. -/
theorem C6_scenario :
    build_workflow_path "Projects" "/Volumes/Proxies" 1 "proxies"
        "/Volumes/RAW/Projects/2024/BMW/Footage/A-Cam/A001.mov" "mp4" =
      "/Volumes/Proxies/Projects/2024/BMW/Footage/proxies/A001.mp4" := by
  decide

/-! ## Claim C8 -/

/-- C8: for every codec outside the three known ones, the command equals
the h264 constrained-bitrate command built without the advanced
rate-control capability, independent of the capability flag; it never
equals the CRF-based command. -/
theorem C8_unknown_codec_fallback (ffmpeg : String) (u : Bool)
    (input_file output_file scale vbitrate abitrate codec_profile container crf
      pre_set tune : String) (codec : String)
    (h1 : codec ≠ "h264") (h2 : codec ≠ "prores") (h3 : codec ≠ "dnxhd") :
    ffmpeg_cmd ffmpeg u input_file output_file scale vbitrate abitrate codec
        codec_profile container crf pre_set tune =
      ffmpeg_cmd ffmpeg false input_file output_file scale vbitrate abitrate "h264"
        codec_profile container crf pre_set tune ∧
    ffmpeg_cmd ffmpeg u input_file output_file scale vbitrate abitrate codec
        codec_profile container crf pre_set tune ≠
      ffmpeg_cmd ffmpeg true input_file output_file scale vbitrate abitrate "h264"
        codec_profile container crf pre_set tune := by
  constructor
  · simp [ffmpeg_cmd, h1, h2, h3]
  · intro hEq
    by_cases ht : tune = "" <;> simp [ffmpeg_cmd, h1, h2, h3, ht] at hEq

/-- Witness for C8, at an unknown codec string. -/
theorem C8_unknown_codec_fallback_witness :
    ffmpeg_cmd "F" true "in.mov" "out.mp4" "320" "256k" "64k" "av1" "" "mp4" "28"
        "veryfast" "" =
      ffmpeg_cmd "F" false "in.mov" "out.mp4" "320" "256k" "64k" "h264" "" "mp4" "28"
        "veryfast" "" ∧
    ffmpeg_cmd "F" true "in.mov" "out.mp4" "320" "256k" "64k" "av1" "" "mp4" "28"
        "veryfast" "" ≠
      ffmpeg_cmd "F" true "in.mov" "out.mp4" "320" "256k" "64k" "h264" "" "mp4" "28"
        "veryfast" "" :=
  C8_unknown_codec_fallback "F" true "in.mov" "out.mp4" "320" "256k" "64k" "" "mp4"
    "28" "veryfast" "" "av1" (by decide) (by decide) (by decide)

/-! ## Claim C9 -/

/-- C9: level trimming never walks past the filesystem root: the root is
a fixed point of the parent-directory step, so once the trimmed directory
reaches the root, any further trimming leaves it there. -/
theorem C9_root_clamp :
    dirname "/" = "/" ∧
    ∀ (dir : String) (k m : Nat), remove_levels k dir = "/" →
      remove_levels (k + m) dir = "/" := by
  have hroot : dirname "/" = "/" := by decide
  have hsplit : ∀ (k : Nat) (m : Nat) (d : String),
      remove_levels (k + m) d = remove_levels m (remove_levels k d) := by
    intro k
    induction k with
    | zero =>
      intro m d
      rw [Nat.zero_add]
      rfl
    | succ n ih =>
      intro m d
      rw [Nat.succ_add]
      show remove_levels (n + m) (dirname d) = _
      rw [ih]
      rfl
  have hfix : ∀ m : Nat, remove_levels m "/" = "/" := by
    intro m
    induction m with
    | zero => rfl
    | succ n ih =>
      show remove_levels n (dirname "/") = "/"
      rw [hroot]
      exact ih
  refine ⟨hroot, ?_⟩
  intro dir k m h
  rw [hsplit k m dir, h]
  exact hfix m

/-- Witness for C9. -/
theorem C9_root_clamp_witness :
    remove_levels 2 "/a/b" = "/" ∧ remove_levels (2 + 3) "/a/b" = "/" :=
  ⟨by decide, C9_root_clamp.2 "/a/b" 2 3 (by decide)⟩

/-! ## Lemmas about the marker search (claim C4) -/

theorem listStartsWith_iff (m l : List Char) :
    listStartsWith m l = true ↔ ∃ t, l = m ++ t := by
  induction m generalizing l with
  | nil => simp [listStartsWith]
  | cons a as ih =>
    cases l with
    | nil => simp [listStartsWith]
    | cons b bs =>
      simp only [listStartsWith, Bool.and_eq_true, beq_iff_eq, ih, List.cons_append,
        List.cons.injEq]
      constructor
      · rintro ⟨hab, t, ht⟩
        exact ⟨t, hab.symm, ht⟩
      · rintro ⟨t, hba, ht⟩
        exact ⟨hba.symm, t, ht⟩

theorem listEndsWith_iff (suf l : List Char) :
    listEndsWith suf l = true ↔ ∃ t, l = t ++ suf := by
  unfold listEndsWith
  rw [listStartsWith_iff]
  constructor
  · rintro ⟨t, ht⟩
    refine ⟨t.reverse, ?_⟩
    have h2 := congrArg List.reverse ht
    simpa using h2
  · rintro ⟨t, rfl⟩
    exact ⟨t.reverse, by simp⟩

theorem searchMarkerAux_nonsep (marker A r : List Char)
    (hA : ∀ ch ∈ A, isSepChar ch = false) :
    searchMarkerAux marker (A ++ r) = searchMarkerAux marker r := by
  induction A with
  | nil => rfl
  | cons a as ih =>
    have ha : isSepChar a = false := hA a (by simp)
    simp only [List.cons_append, searchMarkerAux]
    rw [if_neg (by simp [ha])]
    exact ih (fun ch hch => hA ch (List.mem_cons_of_mem a hch))

theorem searchMarkerAux_hit (marker post : List Char) :
    searchMarkerAux marker ('/' :: (marker ++ '/' :: post)) = some post := by
  have h1 : listStartsWith marker (marker ++ '/' :: post) = true :=
    (listStartsWith_iff _ _).mpr ⟨_, rfl⟩
  have h2 : (marker ++ '/' :: post).drop marker.length = '/' :: post :=
    List.drop_left marker _
  simp only [searchMarkerAux]
  rw [if_pos (by simp [h1, h2, isSepChar, headIsSep])]
  rw [← List.drop_drop, h2]
  rfl

theorem searchMarkerAux_end (marker : List Char)
    (hmsep : ∀ ch ∈ marker, isSepChar ch = false) :
    searchMarkerAux marker ('/' :: marker) = none := by
  simp only [searchMarkerAux]
  rw [if_neg (by simp [List.drop_length, headIsSep])]
  have h2 := searchMarkerAux_nonsep marker marker [] hmsep
  simpa [searchMarkerAux] using h2

theorem searchMarkerAux_root (marker : List Char) (hmne : marker ≠ []) :
    searchMarkerAux marker ['/'] = none := by
  simp only [searchMarkerAux]
  rw [if_neg (by
    cases marker with
    | nil => exact absurd rfl hmne
    | cons a as => simp [listStartsWith])]

theorem searchMarkerAux_skip (marker A r : List Char)
    (hmsep : ∀ ch ∈ marker, isSepChar ch = false)
    (hA : ∀ ch ∈ A, isSepChar ch = false)
    (hne : A ≠ marker)
    (hr : r = [] ∨ headIsSep r = true) :
    searchMarkerAux marker ('/' :: (A ++ r)) = searchMarkerAux marker r := by
  simp only [searchMarkerAux]
  rw [if_neg, searchMarkerAux_nonsep marker A r hA]
  intro hcond
  simp only [Bool.and_eq_true] at hcond
  obtain ⟨⟨-, hlsw⟩, hsep⟩ := hcond
  obtain ⟨t, ht⟩ := (listStartsWith_iff _ _).mp hlsw
  rcases List.append_eq_append_iff.mp ht with ⟨a2, hma, hra⟩ | ⟨c2, hac, htc⟩
  · cases a2 with
    | nil =>
      simp only [List.append_nil] at hma
      exact hne hma.symm
    | cons x a2' =>
      have hx : x ∈ marker := by rw [hma]; simp
      rcases hr with hre | hrs
      · rw [hre] at hra
        exact List.noConfusion hra
      · rw [hra] at hrs
        simp only [List.cons_append, headIsSep] at hrs
        rw [hmsep x hx] at hrs
        exact Bool.noConfusion hrs
  · cases c2 with
    | nil =>
      simp only [List.append_nil] at hac
      exact hne hac
    | cons y c2' =>
      have hy : y ∈ A := by rw [hac]; simp
      have hdrop : (A ++ r).drop marker.length = y :: (c2' ++ r) := by
        rw [hac, List.append_assoc, List.drop_left]
        rfl
      rw [hdrop] at hsep
      simp only [headIsSep] at hsep
      rw [hA y hy] at hsep
      exact Bool.noConfusion hsep

theorem joinSlash_cons_cons (A B : List Char) (t : List (List Char)) :
    joinSlash (A :: B :: t) = A ++ '/' :: joinSlash (B :: t) := rfl

theorem joinSlash_append_singleton (xs : List (List Char)) (L : List Char)
    (hxs : xs ≠ []) :
    joinSlash (xs ++ [L]) = joinSlash xs ++ '/' :: L := by
  induction xs with
  | nil => exact absurd rfl hxs
  | cons A xs' ih =>
    cases xs' with
    | nil => rfl
    | cons B xs'' =>
      rw [show (A :: B :: xs'') ++ [L] = A :: ((B :: xs'') ++ [L]) from rfl]
      rw [show joinSlash (A :: ((B :: xs'') ++ [L])) =
        A ++ '/' :: joinSlash ((B :: xs'') ++ [L]) from rfl]
      rw [ih (by simp)]
      rw [joinSlash_cons_cons]
      simp [List.append_assoc]

theorem searchMarkerAux_segments (marker : List Char) (pre post : List (List Char))
    (hmsep : ∀ ch ∈ marker, isSepChar ch = false)
    (hpre : ∀ A ∈ pre, (∀ ch ∈ A, isSepChar ch = false) ∧ A ≠ marker) :
    searchMarkerAux marker ('/' :: joinSlash (pre ++ marker :: post)) =
      (if post = [] then none else some (joinSlash post)) := by
  induction pre with
  | nil =>
    cases post with
    | nil =>
      rw [if_pos rfl]
      exact searchMarkerAux_end marker hmsep
    | cons p ps =>
      rw [if_neg (by simp)]
      rw [show joinSlash ([] ++ marker :: p :: ps) =
        marker ++ '/' :: joinSlash (p :: ps) from rfl]
      exact searchMarkerAux_hit marker _
  | cons A pre' ih =>
    have hA := hpre A (by simp)
    have hjoin : joinSlash ((A :: pre') ++ marker :: post) =
        A ++ '/' :: joinSlash (pre' ++ marker :: post) := by
      cases pre' <;> rfl
    rw [hjoin]
    rw [searchMarkerAux_skip marker A _ hmsep hA.1 hA.2
      (Or.inr (by simp [headIsSep, isSepChar]))]
    exact ih (fun B hB => hpre B (by simp [hB]))

theorem searchMarkerAux_no_segment (marker : List Char) (segs : List (List Char))
    (hmne : marker ≠ [])
    (hmsep : ∀ ch ∈ marker, isSepChar ch = false)
    (hsegs : ∀ A ∈ segs, (∀ ch ∈ A, isSepChar ch = false) ∧ A ≠ marker) :
    searchMarkerAux marker ('/' :: joinSlash segs) = none := by
  induction segs with
  | nil => exact searchMarkerAux_root marker hmne
  | cons A rest ih =>
    have hA := hsegs A (by simp)
    cases rest with
    | nil =>
      have h2 := searchMarkerAux_skip marker A [] hmsep hA.1 hA.2 (Or.inl rfl)
      simpa [searchMarkerAux] using h2
    | cons B rest' =>
      rw [joinSlash_cons_cons]
      rw [searchMarkerAux_skip marker A _ hmsep hA.1 hA.2
        (Or.inr (by simp [headIsSep, isSepChar]))]
      exact ih (fun C hC => hsegs C (by simp [hC]))

theorem endsWith_last_segment (marker : List Char) (pre : List (List Char)) :
    listEndsWith ('/' :: marker) ('/' :: joinSlash (pre ++ [marker])) = true := by
  rw [listEndsWith_iff]
  induction pre with
  | nil => exact ⟨[], rfl⟩
  | cons A pre' ih =>
    obtain ⟨t, ht⟩ := ih
    refine ⟨'/' :: A ++ t, ?_⟩
    have hjoin : joinSlash ((A :: pre') ++ [marker]) =
        A ++ '/' :: joinSlash (pre' ++ [marker]) := by
      cases pre' <;> rfl
    rw [hjoin, ht]
    simp [List.append_assoc]

theorem not_endsWith_of_no_segment (marker : List Char) (segs : List (List Char))
    (hmne : marker ≠ [])
    (hmsep : ∀ ch ∈ marker, isSepChar ch = false)
    (hsegs : ∀ A ∈ segs, (∀ ch ∈ A, isSepChar ch = false) ∧ A ≠ marker) :
    ¬ listEndsWith ('/' :: marker) ('/' :: joinSlash segs) = true := by
  intro h
  rw [listEndsWith_iff] at h
  obtain ⟨t, ht⟩ := h
  induction segs using List.reverseRecOn with
  | nil =>
    cases t with
    | nil =>
      simp only [List.nil_append, List.cons.injEq] at ht
      exact hmne ht.2.symm
    | cons x t' =>
      simp [joinSlash] at ht
  | append_singleton xs L ih =>
    have hL := hsegs L (by simp)
    have hdecomp : ∃ D, '/' :: joinSlash (xs ++ [L]) = D ++ '/' :: L := by
      cases xs with
      | nil => exact ⟨[], rfl⟩
      | cons A xs' =>
        refine ⟨'/' :: joinSlash (A :: xs'), ?_⟩
        rw [joinSlash_append_singleton _ _ (by simp)]
        rfl
    obtain ⟨D, hD⟩ := hdecomp
    rw [hD] at ht
    rcases List.append_eq_append_iff.mp ht with ⟨a2, hta, hla⟩ | ⟨c2, hdc, hmc⟩
    · cases a2 with
      | nil =>
        simp only [List.nil_append, List.cons.injEq] at hla
        exact hL.2 hla.2
      | cons y a2' =>
        simp only [List.cons_append, List.cons.injEq] at hla
        have hy : '/' ∈ L := by rw [hla.2]; simp
        have := hL.1 '/' hy
        simp [isSepChar] at this
    · cases c2 with
      | nil =>
        simp only [List.nil_append, List.cons.injEq] at hmc
        exact hL.2 (hmc.2.symm)
      | cons y c2' =>
        simp only [List.cons_append, List.cons.injEq] at hmc
        have hy : '/' ∈ marker := by rw [hmc.2]; simp
        have := hmsep '/' hy
        simp [isSepChar] at this

/-! ## Segment-level behavior of the base substitution (claim C4) -/

theorem substitute_segments (marker newBase : String) (pre post : List (List Char))
    (hm : marker ≠ "") (hb : newBase ≠ "")
    (hmsep : ∀ ch ∈ marker.data, isSepChar ch = false)
    (hpre : ∀ A ∈ pre, (∀ ch ∈ A, isSepChar ch = false) ∧ A ≠ marker.data) :
    substitute_base marker newBase (segsPath (pre ++ marker.data :: post)) =
      (if post = [] then posixJoin newBase marker
       else posixJoin3 newBase marker ⟨joinSlash post⟩) := by
  unfold substitute_base
  rw [if_pos ⟨hm, hb⟩]
  rw [show (segsPath (pre ++ marker.data :: post)).data =
    '/' :: joinSlash (pre ++ marker.data :: post) from rfl]
  rw [searchMarkerAux_segments marker.data pre post hmsep hpre]
  cases post with
  | nil =>
    rw [if_pos rfl, if_pos rfl]
    show (if listEndsWith ('/' :: marker.data)
        ('/' :: joinSlash (pre ++ [marker.data])) = true then
      posixJoin newBase marker else segsPath (pre ++ [marker.data])) = _
    rw [if_pos (endsWith_last_segment marker.data pre)]
  | cons p ps =>
    rw [if_neg (by simp)]
    rfl

theorem substitute_no_segment (marker newBase : String) (segs : List (List Char))
    (hm : marker ≠ "") (hb : newBase ≠ "")
    (hmsep : ∀ ch ∈ marker.data, isSepChar ch = false)
    (hsegs : ∀ A ∈ segs, (∀ ch ∈ A, isSepChar ch = false) ∧ A ≠ marker.data) :
    substitute_base marker newBase (segsPath segs) = segsPath segs := by
  have hmne : marker.data ≠ [] := fun h => hm (String.ext h)
  unfold substitute_base
  rw [if_pos ⟨hm, hb⟩]
  rw [show (segsPath segs).data = '/' :: joinSlash segs from rfl]
  rw [searchMarkerAux_no_segment marker.data segs hmne hmsep hsegs]
  show (if listEndsWith ('/' :: marker.data) ('/' :: joinSlash segs) = true then
    posixJoin newBase marker else segsPath segs) = _
  rw [if_neg (not_endsWith_of_no_segment marker.data segs hmne hmsep hsegs)]

/-! ## Claim C4 -/

/-- C4 counterexample: the marker Projects is not a whole slash-segment
of the directory (it only occurs inside the single folder name with
backslashes), yet the mapper substitutes the base, because the regex
accepts a backslash as a segment boundary even on POSIX where a
backslash is an ordinary file-name character. -/
theorem C4_counterexample :
    "Projects".data ∉ splitSlash ("/data/x\\Projects\\y".data) ∧
    substitute_base "Projects" "/nb" "/data/x\\Projects\\y" = "/nb/Projects/y" := by
  constructor
  · decide
  · decide

/-- C4 as amended: over POSIX paths, slash and backslash both act as
segment boundaries for the marker search.  For an absolute directory
whose segments are free of both separator characters, the claim holds as
stated: writing the directory as segments pre, marker, post with the
marker not occurring in pre, a mid-path marker (post nonempty) rebuilds
the directory as newBase/marker/post and a final-segment marker (post
empty) rebuilds it as newBase/marker; and a directory none of whose
segments equals the marker is left unchanged. -/
theorem C4_marker_segment_amended :
    (∀ (marker newBase : String) (pre post : List (List Char)),
      marker ≠ "" → newBase ≠ "" →
      (∀ ch ∈ marker.data, isSepChar ch = false) →
      (∀ A ∈ pre, (∀ ch ∈ A, isSepChar ch = false) ∧ A ≠ marker.data) →
      substitute_base marker newBase (segsPath (pre ++ marker.data :: post)) =
        (if post = [] then posixJoin newBase marker
         else posixJoin3 newBase marker ⟨joinSlash post⟩)) ∧
    (∀ (marker newBase : String) (segs : List (List Char)),
      marker ≠ "" → newBase ≠ "" →
      (∀ ch ∈ marker.data, isSepChar ch = false) →
      (∀ A ∈ segs, (∀ ch ∈ A, isSepChar ch = false) ∧ A ≠ marker.data) →
      substitute_base marker newBase (segsPath segs) = segsPath segs) :=
  ⟨fun marker newBase pre post hm hb hmsep hpre =>
    substitute_segments marker newBase pre post hm hb hmsep hpre,
   fun marker newBase segs hm hb hmsep hsegs =>
    substitute_no_segment marker newBase segs hm hb hmsep hsegs⟩

/-- Witness for the amended C4: a mid-path marker occurrence. -/
theorem C4_marker_segment_amended_witness :
    substitute_base "Projects" "/nb" (segsPath (["data".data] ++ "Projects".data :: ["x".data])) =
      (if (["x".data] : List (List Char)) = [] then posixJoin "/nb" "Projects"
       else posixJoin3 "/nb" "Projects" ⟨joinSlash ["x".data]⟩) :=
  C4_marker_segment_amended.1 "Projects" "/nb" ["data".data] ["x".data]
    (by decide) (by decide) (by decide) (by decide)

end P5Proxy
